import Mathlib

/-!
Verification of the FIT binary encoder in `create_wahoo_workout.py`:
the nibble-lookup checksum engine (`CRC_TABLE`, `calculate_crc`) and the
stateful binary writer (`FitWriter` with `define_message`,
`write_data_message`, `finalize`).

Bytes are modelled as natural numbers; `bytearray`s as `List Nat`.
The Python dict `local_message_types` is modelled as a function
`Nat → Option Nat` (absent key ↦ `none`). `write_data_message`, which
can raise `KeyError`, returns `Except`.
-/

/-- The 16-entry CRC lookup table, from `CRC_TABLE` in the source. -/
def CRC_TABLE : List Nat :=
  [0x0000, 0xCC01, 0xD801, 0x1400, 0xF001, 0x3C00, 0x2800, 0xE401,
   0xA001, 0x6C00, 0x7800, 0xB401, 0x5000, 0x9C01, 0x8801, 0x4400]

/-- Indexing `CRC_TABLE[i]`; every index used is `x &&& 0xF < 16`. -/
def crcTableGet (i : Nat) : Nat := CRC_TABLE.getD i 0

/-- One iteration of the loop body of `calculate_crc`: processes the
low nibble of `byte`, then its high nibble. -/
def crcByte (crc byte : Nat) : Nat :=
  let tmp := crcTableGet (crc &&& 0xF)
  let crc := (crc >>> 4) &&& 0x0FFF
  let crc := crc ^^^ tmp ^^^ crcTableGet (byte &&& 0xF)
  let tmp := crcTableGet (crc &&& 0xF)
  let crc := (crc >>> 4) &&& 0x0FFF
  crc ^^^ tmp ^^^ crcTableGet ((byte >>> 4) &&& 0xF)

/-- `calculate_crc(data, crc=0)` from the source: fold of `crcByte`
over the input bytes. -/
def calculate_crc (data : List Nat) (crc : Nat := 0) : Nat :=
  data.foldl crcByte crc

/-- The table as listed verbatim in the spec (for the refinement claim). -/
def specTable : List Nat :=
  [0x0000, 0xCC01, 0xD801, 0x1400, 0xF001, 0x3C00, 0x2800, 0xE401,
   0xA001, 0x6C00, 0x7800, 0xB401, 0x5000, 0x9C01, 0x8801, 0x4400]

/-- One nibble step as described by the spec: index the table with the
low 4 bits of the accumulator, shift the accumulator right 4 and mask
to 12 bits, then XOR with the fetched value and with the table entry
of the nibble being processed. -/
def specNibbleStep (acc nib : Nat) : Nat :=
  let fetched := specTable.getD (acc &&& 0xF) 0
  let acc := (acc >>> 4) &&& 0x0FFF
  acc ^^^ fetched ^^^ specTable.getD nib 0

/-- The checksum as worded by the spec: for each byte, low nibble then
high nibble through `specNibbleStep`. -/
def checksumSpec (B : List Nat) (seed : Nat) : Nat :=
  B.foldl (fun acc b => specNibbleStep (specNibbleStep acc (b &&& 0xF)) ((b >>> 4) &&& 0xF)) seed

/-! ## The binary writer -/

/-- `struct.pack('<H', x)`: two little-endian bytes. -/
def u16le (x : Nat) : List Nat := [x % 256, (x >>> 8) % 256]

/-- `struct.pack('<I', x)`: four little-endian bytes. -/
def u32le (x : Nat) : List Nat :=
  [x % 256, (x >>> 8) % 256, (x >>> 16) % 256, (x >>> 24) % 256]

def FIT_HEADER_SIZE : Nat := 14
def FIT_PROTOCOL_VERSION : Nat := 0x20
def FIT_PROFILE_VERSION : Nat := 2140

/-- The bytes of `b'.FIT'`. -/
def fitTypeTag : List Nat := [0x2E, 0x46, 0x49, 0x54]

/-- State of `FitWriter`: the output `bytearray`, the
`local_message_types` dict, and the `next_local_id` counter. -/
structure FitWriter where
  data : List Nat
  local_message_types : Nat → Option Nat
  next_local_id : Nat

/-- `FitWriter.__init__`. -/
def initWriter : FitWriter :=
  { data := [], local_message_types := fun _ => none, next_local_id := 0 }

/-- The `struct.pack('<BBB', ...)` triples emitted for the field
descriptors, in declaration order. -/
def fieldTriples : List (Nat × Nat × Nat) → List Nat
  | [] => []
  | (a, b, c) :: fs => a % 256 :: b % 256 :: c % 256 :: fieldTriples fs

/-- `FitWriter.define_message(global_mesg_num, fields)`: assigns the
next local id, records the mapping, appends the definition record
(header `0x40 | local_id`, reserved 0, arch 0, `global_mesg_num` as
u16 LE, field count, one 3-byte triple per field), returns the id. -/
def define_message (w : FitWriter) (global_mesg_num : Nat)
    (fields : List (Nat × Nat × Nat)) : Nat × FitWriter :=
  let local_id := w.next_local_id
  let header := 0x40 ||| local_id
  let definition := header % 256 :: 0 :: 0 :: (u16le global_mesg_num ++
    [fields.length % 256] ++ fieldTriples fields)
  (local_id,
   { data := w.data ++ definition
     local_message_types := fun k =>
       if k = global_mesg_num then some local_id else w.local_message_types k
     next_local_id := w.next_local_id + 1 })

/-- Concatenation of the pre-encoded field values, as the loop of
`write_data_message` appends them. -/
def concatValues : List (List Nat) → List Nat
  | [] => []
  | v :: vs => v ++ concatValues vs

/-- `FitWriter.write_data_message(global_mesg_num, *values)`: looks up
the local id (a missing key raises `KeyError` before anything is
appended), then appends the 1-byte data header followed by each
value's raw bytes. -/
def write_data_message (w : FitWriter) (global_mesg_num : Nat)
    (values : List (List Nat)) : Except String FitWriter :=
  match w.local_message_types global_mesg_num with
  | none => .error "KeyError"
  | some local_id =>
      .ok { w with data := w.data ++ local_id % 256 :: concatValues values }

/-- The writer state after a `write_data_message` call: on `KeyError`
the exception propagates and the writer object is untouched. -/
def writeResultState (w : FitWriter) (global_mesg_num : Nat)
    (values : List (List Nat)) : FitWriter :=
  match write_data_message w global_mesg_num values with
  | .error _ => w
  | .ok w' => w'

/-- `FitWriter.finalize()`: builds the 14-byte header (12 packed bytes
plus the header CRC), and returns header ++ data ++ data CRC. The
writer state is read, never written. -/
def finalize (w : FitWriter) : List Nat × FitWriter :=
  let header := FIT_HEADER_SIZE :: FIT_PROTOCOL_VERSION ::
    (u16le FIT_PROFILE_VERSION ++ u32le w.data.length ++ fitTypeTag)
  let header := header ++ u16le (calculate_crc header)
  let data_crc := calculate_crc w.data
  (header ++ w.data ++ u16le data_crc, w)

/-! ## Session semantics: operations, reachability, invariant -/

/-- One caller-visible operation on a writer. -/
inductive WriterOp where
  | defmsg (m : Nat) (fs : List (Nat × Nat × Nat))
  | writemsg (m : Nat) (vs : List (List Nat))
  | fin

/-- The writer state after one operation (a failed
`write_data_message` leaves the state untouched). -/
def applyOp (w : FitWriter) : WriterOp → FitWriter
  | .defmsg m fs => (define_message w m fs).2
  | .writemsg m vs => writeResultState w m vs
  | .fin => (finalize w).2

/-- States reachable in one session from a fresh writer. -/
def reachable (w : FitWriter) : Prop :=
  ∃ ops : List WriterOp, w = ops.foldl applyOp initWriter

/-- The stream-id invariant: every assigned id is below the counter,
and the mapping is injective (ids pairwise distinct). -/
def WriterInv (w : FitWriter) : Prop :=
  (∀ k v, w.local_message_types k = some v → v < w.next_local_id) ∧
  (∀ k₁ k₂ v, w.local_message_types k₁ = some v →
    w.local_message_types k₂ = some v → k₁ = k₂)

/-- Field triples as the spec words them (no byte wrapping). -/
def plainTriples : List (Nat × Nat × Nat) → List Nat
  | [] => []
  | (a, b, c) :: fs => a :: b :: c :: plainTriples fs

/-- A 1-field schema used to drive concrete sessions. -/
def sampleFields : List (Nat × Nat × Nat) := [(0, 1, 0)]

/-- Run `define_message` once per listed message type, collecting the
returned stream ids. -/
def defineMany (w : FitWriter) : List Nat → List Nat × FitWriter
  | [] => ([], w)
  | m :: ms =>
    let r := define_message w m sampleFields
    let rest := defineMany r.2 ms
    (r.1 :: rest.1, rest.2)

/-- The writer after 16 `define_message` calls (distinct type ids 0..15). -/
def w16 : FitWriter := (defineMany initWriter (List.range 16)).2

/-! ## Checksum engine theorems -/

lemma crcTableGet_lt (i : Nat) : crcTableGet i < 65536 := by
  by_cases h : i < 16
  · interval_cases i <;> decide
  · rw [crcTableGet, List.getD_eq_default]
    · decide
    · simp [CRC_TABLE]; omega

lemma crcByte_lt (crc byte : Nat) : crcByte crc byte < 65536 := by
  have h16 : (65536 : Nat) = 2 ^ 16 := by norm_num
  have hmask : ∀ x : Nat, (x >>> 4) &&& 0x0FFF < 65536 := by
    intro x
    calc (x >>> 4) &&& 0x0FFF ≤ 0x0FFF := Nat.and_le_right
    _ < 65536 := by norm_num
  unfold crcByte
  rw [h16]
  apply Nat.xor_lt_two_pow
  apply Nat.xor_lt_two_pow
  · rw [← h16]; apply hmask
  · rw [← h16]; apply crcTableGet_lt
  · rw [← h16]; apply crcTableGet_lt

lemma calculate_crc_lt (B : List Nat) (seed : Nat) (h : seed < 65536) :
    calculate_crc B seed < 65536 := by
  induction B generalizing seed with
  | nil => exact h
  | cons b B ih => exact ih (crcByte seed b) (crcByte_lt seed b)

lemma crcByte_eq_spec (acc b : Nat) :
    crcByte acc b = specNibbleStep (specNibbleStep acc (b &&& 0xF)) ((b >>> 4) &&& 0xF) := by
  rfl

lemma calculate_crc_eq_checksumSpec (B : List Nat) (seed : Nat) :
    calculate_crc B seed = checksumSpec B seed := by
  unfold calculate_crc checksumSpec
  induction B generalizing seed with
  | nil => rfl
  | cons b B ih => simpa [crcByte_eq_spec] using ih (crcByte seed b)

/-- **C1.** `calculate_crc` computes exactly the spec's nibble-lookup
procedure (low nibble then high nibble per byte; table indexed by the
accumulator's low 4 bits; shift right 4, mask to 12 bits; XOR with the
fetched entry and the entry of the processed nibble, over the verbatim
16-entry table), is total over byte sequences of any length, and its
result is a 16-bit value for any 16-bit seed. -/
theorem calculate_crc_is_nibble_lookup (B : List Nat) (seed : Nat) (h : seed < 65536) :
    calculate_crc B seed = checksumSpec B seed ∧ calculate_crc B seed < 65536 :=
  ⟨calculate_crc_eq_checksumSpec B seed, calculate_crc_lt B seed h⟩

/-- Witness for C1: a concrete 2-byte input with seed 0. -/
theorem calculate_crc_is_nibble_lookup_witness :
    calculate_crc [0xAB, 0x12] 0 = checksumSpec [0xAB, 0x12] 0 ∧
      calculate_crc [0xAB, 0x12] 0 < 65536 :=
  calculate_crc_is_nibble_lookup [0xAB, 0x12] 0 (by decide)

/-- **C6.** Streaming/seeded invariant: feeding `B2` with the checksum
of `B1` as seed equals the one-call checksum of `B1 ++ B2` with seed 0. -/
theorem calculate_crc_streaming (B1 B2 : List Nat) :
    calculate_crc B2 (calculate_crc B1 0) = calculate_crc (B1 ++ B2) 0 := by
  simp [calculate_crc, List.foldl_append]

/-- **C10.** On the empty byte sequence the checksum returns the seed
unchanged, for every 16-bit seed. -/
theorem calculate_crc_nil (s : Nat) (h : s < 65536) : calculate_crc [] s = s := rfl

/-- Witness for C10: seed `0x1234`. -/
theorem calculate_crc_nil_witness : calculate_crc [] 0x1234 = 0x1234 :=
  calculate_crc_nil 0x1234 (by decide)

/-! ## Writer theorems -/

/-- Counterexample for C3: a fresh writer's `finalize` output is not
18 bytes long (the header is 14 bytes, not 16). -/
theorem finalize_empty_not_18 : (finalize initWriter).1.length ≠ 18 := by decide

/-- **C3 (amended).** `finalize()` on a fresh writer returns exactly
16 bytes (14-byte header, empty payload, 2-byte trailer); the
`payload_length` field (bytes 4..7, u32 LE) reads 0, and the trailing
payload checksum is `calculate_crc [] = 0x0000`. -/
theorem finalize_empty_file :
    (finalize initWriter).1.length = 16 ∧
    ((finalize initWriter).1.drop 4).take 4 = u32le 0 ∧
    (finalize initWriter).1.drop 14 = u16le (calculate_crc []) ∧
    calculate_crc [] = 0 := by decide

/-- **C5.** `write_data_message` for a message type with no prior
definition fails (Python raises `KeyError` on the dict lookup before
any byte is appended) and leaves the buffer length unchanged. -/
theorem write_data_message_undefined (w : FitWriter) (m : Nat) (vs : List (List Nat))
    (h : w.local_message_types m = none) :
    write_data_message w m vs = .error "KeyError" ∧
    (writeResultState w m vs).data.length = w.data.length := by
  constructor
  · simp [write_data_message, h]
  · simp [writeResultState, write_data_message, h]

/-- Witness for C5: writing type 0 on a fresh writer. -/
theorem write_data_message_undefined_witness :
    write_data_message initWriter 0 [[1, 2, 3]] = .error "KeyError" ∧
    (writeResultState initWriter 0 [[1, 2, 3]]).data.length = initWriter.data.length :=
  write_data_message_undefined initWriter 0 [[1, 2, 3]] rfl

/-- **C9.** `finalize` only reads the writer: the state (buffer,
mapping, counter) is returned unchanged, so two consecutive calls
return equal byte sequences, each re-derived from the buffer. -/
theorem finalize_frame (w : FitWriter) :
    (finalize w).2 = w ∧ (finalize ((finalize w).2)).1 = (finalize w).1 :=
  ⟨rfl, rfl⟩

/-- Counterexample for C2: the definition record emitted by a fresh
writer has header byte `0x40`, whose bit 7 is clear — the "definition"
marker is bit 6, not bit 7 as claimed. -/
theorem definition_header_bit7_clear :
    ((define_message initWriter 0 [(0, 1, 0)]).2.data).headD 0 = 0x40 ∧
    Nat.testBit 0x40 7 = false := by decide

/-- **C2 (amended).** Every definition record (a first-time definition
included) emitted while the counter is below 16 and the type id fits a
u16 has header byte `0x40 ||| stream_id` — bit 6 set (the definition
marker), bit 7 clear, bits 5..4 zero, bits 3..0 the stream id; and
every data record for a looked-up stream id below 16 has the stream id
itself as header byte — bit 7 clear, bits 3..0 the stream id. -/
theorem record_header_bits (w : FitWriter) (m : Nat) (fs : List (Nat × Nat × Nat))
    (vs : List (List Nat))
    (hn : w.next_local_id < 16) (_hm16 : m < 65536) :
    (∃ rest, (define_message w m fs).2.data =
        w.data ++ ((0x40 ||| w.next_local_id) :: rest) ∧
      Nat.testBit (0x40 ||| w.next_local_id) 7 = false ∧
      Nat.testBit (0x40 ||| w.next_local_id) 6 = true ∧
      (0x40 ||| w.next_local_id) &&& 0x30 = 0 ∧
      (0x40 ||| w.next_local_id) &&& 0xF = w.next_local_id) ∧
    (∀ v, w.local_message_types m = some v → v < 16 →
      ∃ w', write_data_message w m vs = .ok w' ∧
        (∃ rest, w'.data = w.data ++ (v :: rest)) ∧
        Nat.testBit v 7 = false ∧ v &&& 0xF = v) := by
  have hd : (0x40 ||| w.next_local_id) % 256 = 0x40 ||| w.next_local_id ∧
      Nat.testBit (0x40 ||| w.next_local_id) 7 = false ∧
      Nat.testBit (0x40 ||| w.next_local_id) 6 = true ∧
      (0x40 ||| w.next_local_id) &&& 0x30 = 0 ∧
      (0x40 ||| w.next_local_id) &&& 0xF = w.next_local_id := by
    set n := w.next_local_id with hdefn
    clear_value n
    interval_cases n <;> refine ⟨by decide, by decide, by decide, by decide, by decide⟩
  obtain ⟨h256, hb7, hb6, hb54, hmask⟩ := hd
  refine ⟨⟨0 :: 0 :: (u16le m ++ [fs.length % 256] ++ fieldTriples fs),
    ?_, hb7, hb6, hb54, hmask⟩, ?_⟩
  · simp [define_message, h256]
  · intro v hm hv
    have hlow : v % 256 = v ∧ Nat.testBit v 7 = false ∧ v &&& 0xF = v := by
      interval_cases v <;> refine ⟨by decide, by decide, by decide⟩
    obtain ⟨hv256, hvb7, hvmask⟩ := hlow
    refine ⟨{ w with data := w.data ++ v :: concatValues vs }, ?_,
      ⟨concatValues vs, rfl⟩, hvb7, hvmask⟩
    simp [write_data_message, hm, hv256]

/-- Witness for C2 (amended): the definition half at a fresh writer
(a first-time definition of type 7, stream id 0), the data half at the
resulting one-schema writer. -/
theorem record_header_bits_witness :
    (∃ rest, (define_message initWriter 7 sampleFields).2.data =
        initWriter.data ++ ((0x40 ||| initWriter.next_local_id) :: rest) ∧
      Nat.testBit (0x40 ||| initWriter.next_local_id) 7 = false ∧
      Nat.testBit (0x40 ||| initWriter.next_local_id) 6 = true ∧
      (0x40 ||| initWriter.next_local_id) &&& 0x30 = 0 ∧
      (0x40 ||| initWriter.next_local_id) &&& 0xF = initWriter.next_local_id) ∧
    (∃ w', write_data_message (define_message initWriter 7 sampleFields).2 7 [[5]] = .ok w' ∧
      (∃ rest, w'.data = (define_message initWriter 7 sampleFields).2.data ++ (0 :: rest)) ∧
      Nat.testBit 0 7 = false ∧ 0 &&& 0xF = 0) :=
  ⟨(record_header_bits initWriter 7 sampleFields [[5]] (by decide) (by decide)).1,
   (record_header_bits (define_message initWriter 7 sampleFields).2 7 sampleFields [[5]]
      (by decide) (by decide)).2 0 (by decide) (by decide)⟩

/-- **C4 (code evaluation at the failing input).** 16 `define_message`
calls on distinct type ids return stream ids 0..15 in order, but a
17th call does not fail: it returns stream id 16 and appends a
definition record whose header byte is `0x50` — its low 4 bits read 0,
not the assigned stream id 16. There is no capacity check in the code. -/
theorem define_message_no_capacity_check :
    (defineMany initWriter (List.range 16)).1 =
      [0, 1, 2, 3, 4, 5, 6, 7, 8, 9, 10, 11, 12, 13, 14, 15] ∧
    (define_message w16 16 sampleFields).1 = 16 ∧
    (define_message w16 16 sampleFields).2.data =
      w16.data ++ [0x50, 0, 0, 16, 0, 1, 0, 1, 0] ∧
    0x50 &&& 0xF ≠ 16 := by decide

lemma fieldTriples_eq_plain (fs : List (Nat × Nat × Nat))
    (hf : ∀ f ∈ fs, f.1 < 256 ∧ f.2.1 < 256 ∧ f.2.2 < 256) :
    fieldTriples fs = plainTriples fs := by
  induction fs with
  | nil => rfl
  | cons f fs ih =>
    obtain ⟨a, b, c⟩ := f
    obtain ⟨ha, hb, hc⟩ := hf (a, b, c) (List.mem_cons_self _ _)
    simp [fieldTriples, plainTriples, Nat.mod_eq_of_lt ha, Nat.mod_eq_of_lt hb,
      Nat.mod_eq_of_lt hc, ih fun g hg => hf g (List.mem_cons_of_mem _ hg)]

/-- **C7.** `define_message` with a non-empty field list appends, after
the 1-byte record header: a reserved byte 0, an architecture byte 0,
the message type id as u16 LE, the field count byte, then one 3-byte
triple (field id, byte width, type tag) per field in declaration
order; it returns the assigned stream id and records the mapping. -/
theorem define_message_record_layout (w : FitWriter) (m : Nat)
    (fs : List (Nat × Nat × Nat)) (hne : fs ≠ []) (hm : m < 65536)
    (hlen : fs.length < 256)
    (hf : ∀ f ∈ fs, f.1 < 256 ∧ f.2.1 < 256 ∧ f.2.2 < 256) :
    (define_message w m fs).2.data =
      w.data ++ (0x40 ||| w.next_local_id) % 256 :: 0 :: 0 ::
        (u16le m ++ [fs.length] ++ plainTriples fs) ∧
    (define_message w m fs).1 = w.next_local_id ∧
    (define_message w m fs).2.local_message_types m = some w.next_local_id := by
  refine ⟨?_, rfl, ?_⟩
  · simp [define_message, Nat.mod_eq_of_lt hlen, fieldTriples_eq_plain fs hf]
  · simp [define_message]

/-- Witness for C7: type id 0 with the 1-field schema on a fresh writer. -/
theorem define_message_record_layout_witness :
    (define_message initWriter 0 sampleFields).2.data =
      initWriter.data ++ (0x40 ||| initWriter.next_local_id) % 256 :: 0 :: 0 ::
        (u16le 0 ++ [sampleFields.length] ++ plainTriples sampleFields) ∧
    (define_message initWriter 0 sampleFields).1 = initWriter.next_local_id ∧
    (define_message initWriter 0 sampleFields).2.local_message_types 0 =
      some initWriter.next_local_id :=
  define_message_record_layout initWriter 0 sampleFields
    (by decide) (by decide) (by decide) (by decide)

@[simp] lemma define_message_snd_map (w : FitWriter) (m : Nat)
    (fs : List (Nat × Nat × Nat)) :
    (define_message w m fs).2.local_message_types =
      fun k => if k = m then some w.next_local_id else w.local_message_types k := rfl

@[simp] lemma define_message_snd_next (w : FitWriter) (m : Nat)
    (fs : List (Nat × Nat × Nat)) :
    (define_message w m fs).2.next_local_id = w.next_local_id + 1 := rfl

lemma writeResultState_map (w : FitWriter) (m : Nat) (vs : List (List Nat)) :
    (writeResultState w m vs).local_message_types = w.local_message_types ∧
    (writeResultState w m vs).next_local_id = w.next_local_id := by
  unfold writeResultState write_data_message
  cases w.local_message_types m <;> simp

lemma inv_init : WriterInv initWriter :=
  ⟨fun k v hv => by simp [initWriter] at hv,
   fun k₁ k₂ v a _ => by simp [initWriter] at a⟩

lemma inv_applyOp (w : FitWriter) (op : WriterOp) (h : WriterInv w) :
    WriterInv (applyOp w op) := by
  obtain ⟨h1, h2⟩ := h
  cases op with
  | defmsg m fs =>
    constructor
    · intro k v hv
      simp only [applyOp, define_message_snd_map] at hv
      simp only [applyOp, define_message_snd_next]
      by_cases hk : k = m
      · rw [if_pos hk] at hv; injection hv with hv; omega
      · rw [if_neg hk] at hv; exact Nat.lt_succ_of_lt (h1 _ _ hv)
    · intro k₁ k₂ v hv₁ hv₂
      simp only [applyOp, define_message_snd_map] at hv₁ hv₂
      by_cases hk₁ : k₁ = m <;> by_cases hk₂ : k₂ = m
      · rw [hk₁, hk₂]
      · rw [if_pos hk₁] at hv₁
        rw [if_neg hk₂] at hv₂
        injection hv₁ with hv₁
        exact absurd (h1 _ _ hv₂) (by omega)
      · rw [if_neg hk₁] at hv₁
        rw [if_pos hk₂] at hv₂
        injection hv₂ with hv₂
        exact absurd (h1 _ _ hv₁) (by omega)
      · rw [if_neg hk₁] at hv₁
        rw [if_neg hk₂] at hv₂
        exact h2 _ _ _ hv₁ hv₂
  | writemsg m vs =>
    have hmap := (writeResultState_map w m vs).1
    have hnext := (writeResultState_map w m vs).2
    constructor
    · intro k v hv
      simp only [applyOp, hmap, hnext] at hv ⊢
      exact h1 k v hv
    · intro k₁ k₂ v a b
      simp only [applyOp, hmap] at a b
      exact h2 _ _ _ a b
  | fin => exact ⟨h1, h2⟩

lemma stable_step (w : FitWriter) (op : WriterOp) (k v : Nat) (hinv : WriterInv w)
    (hcase : w.local_message_types k = some v ∨
      (v < w.next_local_id ∧ ∀ k', w.local_message_types k' ≠ some v)) :
    (applyOp w op).local_message_types k = some v ∨
      (v < (applyOp w op).next_local_id ∧
        ∀ k', (applyOp w op).local_message_types k' ≠ some v) := by
  obtain ⟨h1, h2⟩ := hinv
  cases op with
  | defmsg m fs =>
    simp only [applyOp, define_message_snd_map, define_message_snd_next]
    rcases hcase with hk | ⟨hlt, hnone⟩
    · by_cases hkm : k = m
      · right
        have hvlt : v < w.next_local_id := h1 _ _ hk
        refine ⟨by omega, ?_⟩
        intro k' hk'
        by_cases hk'm : k' = m
        · rw [if_pos hk'm] at hk'; injection hk' with hk'; omega
        · rw [if_neg hk'm] at hk'
          exact hk'm ((h2 k' k v hk' hk).trans hkm)
      · left
        rw [if_neg hkm]
        exact hk
    · right
      refine ⟨by omega, ?_⟩
      intro k' hk'
      by_cases hk'm : k' = m
      · rw [if_pos hk'm] at hk'; injection hk' with hk'; omega
      · rw [if_neg hk'm] at hk'
        exact hnone k' hk'
  | writemsg m vs =>
    have hmap := (writeResultState_map w m vs).1
    have hnext := (writeResultState_map w m vs).2
    simp only [applyOp, hmap, hnext]
    exact hcase
  | fin => exact hcase

lemma stable_foldl (ops : List WriterOp) (w : FitWriter) (k v : Nat)
    (hinv : WriterInv w)
    (hcase : w.local_message_types k = some v ∨
      (v < w.next_local_id ∧ ∀ k', w.local_message_types k' ≠ some v)) :
    WriterInv (ops.foldl applyOp w) ∧
      ((ops.foldl applyOp w).local_message_types k = some v ∨
        (v < (ops.foldl applyOp w).next_local_id ∧
          ∀ k', (ops.foldl applyOp w).local_message_types k' ≠ some v)) := by
  induction ops generalizing w with
  | nil => exact ⟨hinv, hcase⟩
  | cons op ops ih =>
    exact ih (applyOp w op) (inv_applyOp w op hinv) (stable_step w op k v hinv hcase)

lemma inv_foldl (ops : List WriterOp) (w0 : FitWriter) (h : WriterInv w0) :
    WriterInv (ops.foldl applyOp w0) := by
  induction ops generalizing w0 with
  | nil => exact h
  | cons op ops ih => exact ih _ (inv_applyOp w0 op h)

/-- **C8.** In every reachable writer state the assigned stream ids
are pairwise distinct (the mapping is injective), and once a stream id
has been assigned to a message type it is never held by a different
message type after any further sequence of operations. -/
theorem stream_id_invariant (w : FitWriter) (h : reachable w) :
    WriterInv w ∧
    ∀ k v, w.local_message_types k = some v →
      ∀ (ops : List WriterOp) (k' : Nat),
        (ops.foldl applyOp w).local_message_types k' = some v → k' = k := by
  obtain ⟨ops0, rfl⟩ := h
  have hinv := inv_foldl ops0 initWriter inv_init
  refine ⟨hinv, ?_⟩
  intro k v hk ops k' hk'
  obtain ⟨hinv', hcase⟩ :=
    stable_foldl ops (ops0.foldl applyOp initWriter) k v hinv (Or.inl hk)
  rcases hcase with hk2 | ⟨_, hnone⟩
  · exact hinv'.2 k' k v hk' hk2
  · exact absurd hk' (hnone k')

/-- Witness for C8: the state after one `define_message` call. -/
theorem stream_id_invariant_witness :
    WriterInv (List.foldl applyOp initWriter [WriterOp.defmsg 3 sampleFields]) :=
  (stream_id_invariant _ ⟨[WriterOp.defmsg 3 sampleFields], rfl⟩).1
